import Mathlib

/-!
Verification of the terminal-UI rendering core described by the repository's
specification.  The repository's `src/lib.rs` only declares the modules
(`buffer`, `layout`, `terminal`, ...); the module bodies are not part of the
source tree, so every operation below is modelled from the specification text
(sections 3, 4.1, 4.2, 4.3 and 7 of `spec.md`).
-/

namespace Tui

/-- Modelled from the spec (§3, the `buffer`/`layout` module bodies are missing
from the source tree): a rectangle `(x, y, width, height)` in unsigned cell
coordinates.  A degenerate rectangle (width or height zero) is valid and
denotes "no area". -/
structure Rect where
  x : Nat
  y : Nat
  width : Nat
  height : Nat
  deriving DecidableEq, Repr

/-- One past the right-most column of the rectangle. -/
def Rect.right (r : Rect) : Nat := r.x + r.width

/-- One past the bottom-most row of the rectangle. -/
def Rect.bottom (r : Rect) : Nat := r.y + r.height

/-- Point containment test for a rectangle. -/
def Rect.containsXY (r : Rect) (px py : Nat) : Bool :=
  decide (r.x ≤ px) && decide (px < r.right) && decide (r.y ≤ py) && decide (py < r.bottom)

/-- Full containment of `inner` inside `outer`. -/
def Rect.containsRect (outer inner : Rect) : Bool :=
  decide (outer.x ≤ inner.x) && decide (outer.y ≤ inner.y) &&
  decide (inner.right ≤ outer.right) && decide (inner.bottom ≤ outer.bottom)

/-- Modelled from the spec (§3, styling data is consumed as an opaque value
type): a style value; the concrete fields are irrelevant to the core, only
equality matters. -/
structure Style where
  fg : Nat := 0
  bg : Nat := 0
  modifiers : Nat := 0
  deriving DecidableEq, Repr

/-- Modelled from the spec (§3, the `buffer` module body is missing from the
source tree): a cell holds a grapheme-cluster symbol, the display width of
that symbol (grapheme segmentation and width measurement are external
collaborators, so the width is carried as data), and a style.  The default
cell is a single space with no style. -/
structure Cell where
  symbol : String := " "
  width : Nat := 1
  style : Style := {}
  deriving DecidableEq, Repr

instance : Inhabited Cell := ⟨{}⟩

/-- Modelled from the spec (§3, the `buffer` module body is missing from the
source tree): a buffer owns a rectangular extent and a row-major list of
cells of size `area.width * area.height`. -/
structure Buffer where
  area : Rect
  content : List Cell
  deriving DecidableEq, Repr

/-- The buffer invariant from §3: the content has exactly one cell per
coordinate of the area. -/
def Buffer.WellFormed (b : Buffer) : Prop :=
  b.content.length = b.area.width * b.area.height

instance (b : Buffer) : Decidable b.WellFormed := by
  unfold Buffer.WellFormed; infer_instance

/-- Modelled from the spec (§4.1 `new`): a buffer filled with default cells
over `area`. -/
def Buffer.empty (area : Rect) : Buffer :=
  ⟨area, List.replicate (area.width * area.height) {}⟩

/-- Row-major linear index of the point `(px, py)` of the buffer's area
(§3: `index = (y - area.y) * area.width + (x - area.x)`). -/
def Buffer.indexOf (b : Buffer) (px py : Nat) : Nat :=
  (py - b.area.y) * b.area.width + (px - b.area.x)

/-- Inverse of `Buffer.indexOf`: the coordinates of linear index `i`. -/
def Buffer.posOf (b : Buffer) (i : Nat) : Nat × Nat :=
  (b.area.x + i % b.area.width, b.area.y + i / b.area.width)

/-- Modelled from the spec (§4.1 `get`): point read; out-of-bounds access is a
programming error and fails loudly, modelled by `none`. -/
def Buffer.get (b : Buffer) (px py : Nat) : Option Cell :=
  if b.area.containsXY px py then b.content[b.indexOf px py]? else none

/-- Unchecked write at a linear index (the internal store behind `set`). -/
def Buffer.setAt (b : Buffer) (i : Nat) (c : Cell) : Buffer :=
  ⟨b.area, b.content.set i c⟩

/-- Modelled from the spec (§4.1 `set`): point write; out-of-bounds access is
a programming error and fails loudly, modelled by `none` (never a silent
clamp). -/
def Buffer.set (b : Buffer) (px py : Nat) (c : Cell) : Option Buffer :=
  if b.area.containsXY px py then some (b.setAt (b.indexOf px py) c) else none

/-- Dirty test of the diff algorithm (§4.1): a cell is emitted when it differs
from the previous frame, or when it belongs to a wide-glyph pair (an owning
cell of display width ≥ 2 together with the following placeholder cell) whose
other member differs — wide glyphs are treated atomically, so the placeholder
is never emitted independently of its owner.  The coalescing of short runs of
unchanged cells between dirty runs is a tunable (§9, "a tunable constant, not
a fixed contract") and is modelled with threshold zero, i.e. no coalescing. -/
def dirtyAt (cur prev : List Cell) (i : Nat) : Bool :=
  decide (cur.getD i {} ≠ prev.getD i {}) ||
  (decide (2 ≤ (cur.getD i {}).width) && decide (i + 1 < cur.length) &&
    decide (cur.getD (i + 1) {} ≠ prev.getD (i + 1) {})) ||
  (decide (0 < i) && decide (2 ≤ (cur.getD (i - 1) {}).width) &&
    decide (cur.getD (i - 1) {} ≠ prev.getD (i - 1) {}))

/-- The entry the diff emits at a dirty index: the coordinates and the
current cell there. -/
def Buffer.diffEmit (cur prev : Buffer) (i : Nat) : Option (Nat × Nat × Cell) :=
  if dirtyAt cur.content prev.content i then
    some ((cur.posOf i).1, (cur.posOf i).2, cur.content.getD i {})
  else none

/-- Row-major scan of the diff algorithm (§4.1): emit `(x, y, cell)` for every
dirty index, in ascending index order. -/
def Buffer.diffCore (cur prev : Buffer) : List (Nat × Nat × Cell) :=
  (List.range (min cur.content.length prev.content.length)).filterMap
    (Buffer.diffEmit cur prev)

/-- Modelled from the spec (§4.1 `diff`, the `buffer` module body is missing
from the source tree): `cur.diff prev` computes the ordered dirty-cell
sequence; both buffers must share the same area, a mismatch is a precondition
violation that fails loudly, modelled by `none`. -/
def Buffer.diff (cur prev : Buffer) : Option (List (Nat × Nat × Cell)) :=
  if cur.area = prev.area then some (cur.diffCore prev) else none

/-- Applying one `(x, y, cell)` write through the public point write; a write
that would be out of bounds leaves the buffer unchanged. -/
def Buffer.applyWrite (b : Buffer) (u : Nat × Nat × Cell) : Buffer :=
  (b.set u.1 u.2.1 u.2.2).getD b

/-- Applying an ordered sequence of writes (as a backend would). -/
def Buffer.applyWrites (b : Buffer) (us : List (Nat × Nat × Cell)) : Buffer :=
  us.foldl Buffer.applyWrite b

/-- Writes `k` placeholder continuation cells starting at `(px, py)` (the
cells covered by a wide glyph hold an empty placeholder symbol, §4.1). -/
def Buffer.placeholders (b : Buffer) (px py : Nat) : Nat → Style → Buffer
  | 0, _ => b
  | k + 1, st =>
    (b.setAt (b.indexOf px py) ⟨"", 1, st⟩).placeholders (px + 1) py k st

/-- Modelled from the spec (§4.1 `set_string`, the `buffer` module body is
missing from the source tree): write a sequence of grapheme clusters — given,
since segmentation is an external collaborator, as `(symbol, displayWidth)`
pairs — starting at `(px, py)`, advancing by each cluster's display width; a
wide cluster occupies its width in cells, the first holding the symbol and
the rest empty placeholders.  A cluster that would run past the buffer's
right edge truncates the write: it and the remaining clusters are dropped,
never wrapped to the next row.  Zero-width clusters are skipped. -/
def Buffer.setStringFrom (b : Buffer) (px py : Nat)
    (text : List (String × Nat)) (st : Style) : Buffer :=
  match text with
  | [] => b
  | g :: rest =>
    if g.2 = 0 then b.setStringFrom px py rest st
    else if px + g.2 ≤ b.area.right then
      let b1 := b.setAt (b.indexOf px py) ⟨g.1, g.2, st⟩
      let b2 := b1.placeholders (px + 1) py (g.2 - 1) st
      b2.setStringFrom (px + g.2) py rest st
    else b

/-- Linear indices belonging to row `py` of the buffer's area. -/
def Buffer.inRowBand (b : Buffer) (py j : Nat) : Prop :=
  (py - b.area.y) * b.area.width ≤ j ∧
    j < (py - b.area.y) * b.area.width + b.area.width

/-- Entry point of `set_string`: the starting point must lie in the buffer's
area, otherwise nothing is written. -/
def Buffer.setString (b : Buffer) (px py : Nat)
    (text : List (String × Nat)) (st : Style) : Buffer :=
  if b.area.containsXY px py then b.setStringFrom px py text st else b

/-- Modelled from the spec (§4.1 `merge`, the `buffer` module body is missing
from the source tree): overlay another buffer's cells onto this one at the
other buffer's own coordinates; the other buffer's area must be fully
contained, a violation is a precondition error that fails loudly, modelled by
`none`. -/
def Buffer.merge (b other : Buffer) : Option Buffer :=
  if b.area.containsRect other.area then
    some (b.applyWrites ((List.range other.content.length).map fun i =>
      ((other.posOf i).1, (other.posOf i).2, other.content.getD i {})))
  else none

/-! ### Layout solver -/

/-- Split direction of the layout solver (§4.2). -/
inductive Direction
  | Horizontal
  | Vertical
  deriving DecidableEq, Repr

/-- Modelled from the spec (§3, the `layout` module body is missing from the
source tree): the constraint kinds — fixed length, percentage of total, ratio
of total, minimum length, maximum length.  The crate documentation's
`Constraint::eq(Unit::Percentage(p))` builder corresponds to the percentage
kind. -/
inductive Constraint
  | Length (v : Nat)
  | Percentage (p : Nat)
  | Ratio (num den : Nat)
  | Min (v : Nat)
  | Max (v : Nat)
  deriving DecidableEq, Repr

/-- Min/max constraints are the flexible, lowest-priority ones (§4.2 step 1,
§9: fixed/percentage dominate over min/max/flexible). -/
def Constraint.isFlexible : Constraint → Bool
  | .Min _ => true
  | .Max _ => true
  | _ => false

/-- The percentage and ratio constraint kinds (the rounded ones of §4.2
step 1). -/
def Constraint.isPercentageOrRatio : Constraint → Bool
  | .Percentage _ => true
  | .Ratio _ _ => true
  | _ => false

/-- Rounding to the nearest cell (§4.2 step 1, round half up as `round` of
the real quotient `a / b`). -/
def roundDiv (a b : Nat) : Nat :=
  if b = 0 then 0 else (2 * a + b) / (2 * b)

/-- Raw requested length of a non-flexible constraint (§4.2 step 1): fixed →
literal; percentage → `round(total * pct / 100)`; ratio →
`round(total * num / den)`.  Flexible constraints contribute nothing here. -/
def Constraint.nonFlexRaw (total : Nat) : Constraint → Nat
  | .Length v => v
  | .Percentage p => roundDiv (total * p) 100
  | .Ratio num den => roundDiv (total * num) den
  | .Min _ => 0
  | .Max _ => 0

/-- Declared lower bound of a constraint: a minimum is never violated once
assigned (§4.2 step 2). -/
def Constraint.lowerBound : Constraint → Nat
  | .Min v => v
  | _ => 0

/-- Even share of the remaining length for each flexible constraint (§4.2
step 1: min/max initially request the full remaining length split evenly
among all flexible constraints). -/
def flexShare (total : Nat) (cs : List Constraint) : Nat :=
  let k := (cs.filter Constraint.isFlexible).length
  if k = 0 then 0
  else (total - (cs.map (Constraint.nonFlexRaw total)).sum) / k

/-- Raw requested length of a constraint (§4.2 step 1), the flexible share
clamped by the declared minimum/maximum bound. -/
def Constraint.raw (total share : Nat) : Constraint → Nat
  | .Min v => max share v
  | .Max v => min share v
  | c => c.nonFlexRaw total

/-- Raw requested lengths of all constraints (§4.2 step 1). -/
def rawLengths (total : Nat) (cs : List Constraint) : List Nat :=
  cs.map (Constraint.raw total (flexShare total cs))

/-- One shrinking pass (§4.2 step 2): walk the segments in order, each giving
up as much of the remaining excess as its slack allows (the distribution
inside one priority class is modelled greedily; the claims under check do not
depend on the distribution).  Returns the shrunk lengths and the excess that
could not be absorbed. -/
def shrinkPass (slack : Constraint → Nat → Nat) :
    List (Constraint × Nat) → Nat → List (Constraint × Nat) × Nat
  | [], e => ([], e)
  | (c, v) :: rest, e =>
    ((c, v - min e (slack c v)) ::
        (shrinkPass slack rest (e - min e (slack c v))).1,
      (shrinkPass slack rest (e - min e (slack c v))).2)

/-- Slack of the first shrinking pass: flexible constraints may shrink down
to their declared lower bound, others are untouched (§4.2 step 2: shrink
flexible/min before fixed/percentage). -/
def slackFlex (c : Constraint) (v : Nat) : Nat :=
  if c.isFlexible then v - c.lowerBound else 0

/-- Slack of the second shrinking pass: non-flexible constraints may shrink
down to zero, never below (§4.2 step 2). -/
def slackNonFlex (c : Constraint) (v : Nat) : Nat :=
  if c.isFlexible then 0 else v

/-- How much of the remainder a segment absorbs in the growing pass (§4.2
step 3): only flexible constraints grow, a maximum bound capping its
segment's growth. -/
def growTake (c : Constraint) (v e : Nat) : Nat :=
  match c with
  | .Min _ => e
  | .Max m => min e (m - v)
  | _ => 0

/-- Growing pass (§4.2 step 3): the flexible constraints consume the
remainder in order.  Returns the grown lengths and the remainder that no
flexible constraint could absorb. -/
def growPass : List (Constraint × Nat) → Nat → List (Constraint × Nat) × Nat
  | [], e => ([], e)
  | (c, v) :: rest, e =>
    ((c, v + growTake c v e) :: (growPass rest (e - growTake c v e)).1,
      (growPass rest (e - growTake c v e)).2)

/-- Assigns the leftover to the last segment (§4.2 step 4). -/
def addToLast : List Nat → Nat → List Nat
  | [], _ => []
  | [v], e => [v + e]
  | v :: rest, e => v :: addToLast rest e

/-- Leftover length that remains after the growing pass; §4.2 step 4 assigns
it to the last segment. -/
def growLeftover (total : Nat) (cs : List Constraint) : Nat :=
  (growPass (cs.zip (rawLengths total cs)) (total - (rawLengths total cs).sum)).2

/-- Modelled from the spec (§4.2, the `layout` module body is missing from
the source tree): the one-dimensional constraint resolution.  Raw requested
lengths are computed per §4.2 step 1; if their sum exceeds the available
total the segments shrink, lowest-priority first (step 2); otherwise the
flexible segments grow to consume the remainder (step 3) and any leftover is
assigned to the last segment (step 4). -/
def solve1D (total : Nat) (cs : List Constraint) : List Nat :=
  if total < (rawLengths total cs).sum then
    ((shrinkPass slackNonFlex
        (shrinkPass slackFlex (cs.zip (rawLengths total cs))
          ((rawLengths total cs).sum - total)).1
        (shrinkPass slackFlex (cs.zip (rawLengths total cs))
          ((rawLengths total cs).sum - total)).2).1).map Prod.snd
  else
    addToLast
      (((growPass (cs.zip (rawLengths total cs))
          (total - (rawLengths total cs).sum)).1).map Prod.snd)
      (growPass (cs.zip (rawLengths total cs))
        (total - (rawLengths total cs).sum)).2

/-- Length of a rectangle along the split axis (§4.2). -/
def Rect.lengthAlong : Direction → Rect → Nat
  | .Horizontal, r => r.width
  | .Vertical, r => r.height

/-- Offset of a rectangle along the split axis. -/
def Rect.offsetAlong : Direction → Rect → Nat
  | .Horizontal, r => r.x
  | .Vertical, r => r.y

/-- Places the solved segment lengths one after the other along the split
axis, starting at the margin-shifted origin; the cross axis is the area's
cross extent minus margins, identical for every segment (§4.2). -/
def placeSegs (dir : Direction) (ox oy iw ih : Nat) :
    Nat → List Nat → List Rect
  | _, [] => []
  | off, v :: rest =>
    match dir with
    | .Horizontal => ⟨off, oy, v, ih⟩ :: placeSegs dir ox oy iw ih (off + v) rest
    | .Vertical => ⟨ox, off, iw, v⟩ :: placeSegs dir ox oy iw ih (off + v) rest

/-- Available total along the split axis: the area's length minus both
margins (§4.2). -/
def availableTotal (area : Rect) (dir : Direction) (margin : Nat) : Nat :=
  area.lengthAlong dir - 2 * margin

/-- Modelled from the spec (§4.2 `split`, the `layout` module body is missing
from the source tree): reduce to one dimension along the split axis, apply
the margin by shrinking the working length and offsetting the origin, solve
the constraints, and emit one rectangle per constraint in input order. -/
def split (area : Rect) (dir : Direction) (margin : Nat)
    (cs : List Constraint) : List Rect :=
  placeSegs dir (area.x + margin) (area.y + margin)
    (area.width - 2 * margin) (area.height - 2 * margin)
    (area.offsetAlong dir + margin)
    (solve1D (availableTotal area dir margin) cs)

/-! ### Render surface -/

/-- Modelled from the spec (§3 and §4.3, the `terminal` module body is
missing from the source tree): the render surface owns the current and the
previous buffer and the cursor visibility flag. -/
structure RenderSurface where
  current : Buffer
  previous : Buffer
  cursorVisible : Bool
  deriving Repr

/-- Modelled from the spec (§4.3 `end_draw`, the `terminal` module body is
missing from the source tree): compute `current.diff previous`, hand the
ordered dirty-cell sequence to the backend's write operation (passed in as a
function, since the backend is an external collaborator), and — only when the
backend write succeeds — swap buffers and reset the new current buffer to
defaults.  A backend failure is propagated and the buffers are not swapped,
so the state is returned unchanged. -/
def endDraw (st : RenderSurface)
    (backendWrite : List (Nat × Nat × Cell) → Except String Unit) :
    Except String Unit × RenderSurface :=
  let updates := (st.current.diff st.previous).getD []
  match backendWrite updates with
  | .error e => (.error e, st)
  | .ok () =>
    (.ok (), { st with
      current := Buffer.empty st.current.area
      previous := st.current })

/-! ### Example data used by witnesses -/

/-- A 2×1 buffer of default cells. -/
def exampleEmpty : Buffer := Buffer.empty ⟨0, 0, 2, 1⟩

/-- A 2×1 buffer holding the text `hi`. -/
def exampleHi : Buffer := ⟨⟨0, 0, 2, 1⟩, [⟨"h", 1, {}⟩, ⟨"i", 1, {}⟩]⟩

/-! ### Diff engine lemmas -/

/-- Diffing identical content marks no index dirty. -/
lemma dirtyAt_self (c : List Cell) (i : Nat) : dirtyAt c c i = false := by
  simp [dirtyAt]

/-- The linear row-major key of the entry emitted at index `i` is
`area.y * width + area.x + i`. -/
lemma posOf_linear (b : Buffer) (i : Nat) :
    (b.posOf i).2 * b.area.width + (b.posOf i).1 =
      b.area.y * b.area.width + b.area.x + i := by
  have h1 : i / b.area.width * b.area.width + i % b.area.width = i := by
    rw [Nat.mul_comm]; exact Nat.div_add_mod i b.area.width
  simp only [Buffer.posOf]
  calc (b.area.y + i / b.area.width) * b.area.width + (b.area.x + i % b.area.width)
      = b.area.y * b.area.width + b.area.x +
        (i / b.area.width * b.area.width + i % b.area.width) := by ring
    _ = b.area.y * b.area.width + b.area.x + i := by rw [h1]

/-- Buffers with equal areas and equal contents are equal. -/
lemma Buffer.eqOf (b1 b2 : Buffer) (h1 : b1.area = b2.area)
    (h2 : b1.content = b2.content) : b1 = b2 := by
  cases b1; cases b2; simp_all

lemma Buffer.setAt_area (b : Buffer) (i : Nat) (c : Cell) :
    (b.setAt i c).area = b.area := rfl

lemma Buffer.setAt_length (b : Buffer) (i : Nat) (c : Cell) :
    (b.setAt i c).content.length = b.content.length := by
  simp [Buffer.setAt]

lemma Buffer.applyWrite_area (b : Buffer) (u : Nat × Nat × Cell) :
    (b.applyWrite u).area = b.area := by
  unfold Buffer.applyWrite Buffer.set
  split <;> rfl

lemma Buffer.applyWrites_cons (b : Buffer) (u : Nat × Nat × Cell)
    (us : List (Nat × Nat × Cell)) :
    b.applyWrites (u :: us) = (b.applyWrite u).applyWrites us := rfl

lemma Buffer.applyWrites_area (us : List (Nat × Nat × Cell)) :
    ∀ (b : Buffer), (b.applyWrites us).area = b.area := by
  induction us with
  | nil => intro b; rfl
  | cons u us ih =>
    intro b
    rw [Buffer.applyWrites_cons, ih, Buffer.applyWrite_area]

/-- Applying the entry the diff emits at index `i` writes the current cell at
linear index `i`. -/
lemma Buffer.applyWrite_diffEmit (cur prev b : Buffer) (i : Nat)
    (u : Nat × Nat × Cell) (hb : b.area = cur.area)
    (hi : i < cur.area.width * cur.area.height)
    (hu : Buffer.diffEmit cur prev i = some u) :
    b.applyWrite u = b.setAt i (cur.content.getD i {}) := by
  have hw : 0 < cur.area.width := by
    rcases Nat.eq_zero_or_pos cur.area.width with h0 | h0
    · rw [h0] at hi; simp at hi
    · exact h0
  have hmod : i % cur.area.width < cur.area.width := Nat.mod_lt _ hw
  have hdiv : i / cur.area.width < cur.area.height := by
    rw [Nat.div_lt_iff_lt_mul hw]
    exact (Nat.mul_comm _ _) ▸ hi
  have hfst : (cur.posOf i).1 = cur.area.x + i % cur.area.width := rfl
  have hsnd : (cur.posOf i).2 = cur.area.y + i / cur.area.width := rfl
  unfold Buffer.diffEmit at hu
  split at hu
  · injection hu with hu
    subst hu
    unfold Buffer.applyWrite Buffer.set
    have hcont : b.area.containsXY (cur.posOf i).1 (cur.posOf i).2 = true := by
      rw [hfst, hsnd, hb]
      simp only [Rect.containsXY, Rect.right, Rect.bottom, Bool.and_eq_true,
        decide_eq_true_eq]
      exact ⟨⟨⟨Nat.le_add_right _ _, Nat.add_lt_add_left hmod _⟩,
        Nat.le_add_right _ _⟩, Nat.add_lt_add_left hdiv _⟩
    simp only
    rw [if_pos hcont]
    simp only [Option.getD_some]
    congr 1
    rw [hfst, hsnd]
    simp only [Buffer.indexOf, hb]
    rw [Nat.add_sub_cancel_left, Nat.add_sub_cancel_left,
      Nat.mul_comm (i / cur.area.width)]
    exact Nat.div_add_mod i cur.area.width
  · exact absurd hu (by simp)

/-- Applying the diff-emitted writes over an index list replaces every dirty
index by the current cell and leaves everything else unchanged. -/
lemma Buffer.applyWrites_diffEmit_get (cur prev : Buffer) :
    ∀ (l : List Nat) (b : Buffer), b.area = cur.area →
      b.content.length = cur.area.width * cur.area.height →
      (∀ i ∈ l, i < cur.area.width * cur.area.height) →
      ∀ j, (b.applyWrites (l.filterMap (Buffer.diffEmit cur prev))).content[j]? =
        if j ∈ l ∧ dirtyAt cur.content prev.content j = true
        then some (cur.content.getD j {})
        else b.content[j]? := by
  intro l
  induction l with
  | nil =>
    intro b hb hlen hall j
    simp [Buffer.applyWrites]
  | cons i l ih =>
    intro b hb hlen hall j
    rcases hemit : Buffer.diffEmit cur prev i with _ | u
    · have hdi : dirtyAt cur.content prev.content i = false := by
        unfold Buffer.diffEmit at hemit
        by_cases h : dirtyAt cur.content prev.content i = true
        · rw [if_pos h] at hemit; cases hemit
        · simpa using h
      rw [List.filterMap_cons_none hemit,
        ih b hb hlen (fun x hx => hall x (List.mem_cons_of_mem _ hx)) j]
      by_cases hji : j = i
      · subst hji
        simp [hdi]
      · by_cases hjs : j ∈ l ∧ dirtyAt cur.content prev.content j = true
        · rw [if_pos hjs, if_pos ⟨List.mem_cons_of_mem _ hjs.1, hjs.2⟩]
        · rw [if_neg hjs,
            if_neg (fun hcon =>
              hjs ⟨(List.mem_cons.mp hcon.1).resolve_left hji, hcon.2⟩)]
    · have hdi : dirtyAt cur.content prev.content i = true := by
        unfold Buffer.diffEmit at hemit
        by_cases h : dirtyAt cur.content prev.content i = true
        · exact h
        · rw [if_neg h] at hemit; cases hemit
      have hiI : i < cur.area.width * cur.area.height :=
        hall i (List.mem_cons_self _ _)
      rw [List.filterMap_cons_some hemit, Buffer.applyWrites_cons,
        Buffer.applyWrite_diffEmit cur prev b i u hb hiI hemit,
        ih (b.setAt i (cur.content.getD i {}))
          (by rw [Buffer.setAt_area]; exact hb)
          (by rw [Buffer.setAt_length]; exact hlen)
          (fun x hx => hall x (List.mem_cons_of_mem _ hx)) j]
      by_cases hjs : j ∈ l ∧ dirtyAt cur.content prev.content j = true
      · rw [if_pos hjs, if_pos ⟨List.mem_cons_of_mem _ hjs.1, hjs.2⟩]
      · rw [if_neg hjs]
        by_cases hji : j = i
        · subst hji
          rw [if_pos ⟨List.mem_cons_self _ _, hdi⟩]
          unfold Buffer.setAt
          simp only
          rw [List.getElem?_set_self (by omega)]
        · rw [if_neg (fun hcon =>
            hjs ⟨(List.mem_cons.mp hcon.1).resolve_left hji, hcon.2⟩)]
          unfold Buffer.setAt
          simp only
          rw [List.getElem?_set_ne (fun h => hji h.symm)]

/-- C1: for every pair of well-formed buffers of equal area, `diff(B, A)`
succeeds and applying its writes to a copy of `A` yields a buffer equal to
`B`. -/
theorem claim1_diff_roundTrip (cur prev : Buffer)
    (hc : cur.WellFormed) (hp : prev.WellFormed) (h : cur.area = prev.area) :
    cur.diff prev = some (cur.diffCore prev) ∧
      prev.applyWrites (cur.diffCore prev) = cur := by
  constructor
  · unfold Buffer.diff
    rw [if_pos h]
  · have hlc : cur.content.length = cur.area.width * cur.area.height := hc
    have hlp : prev.content.length = cur.area.width * cur.area.height := by
      rw [h]; exact hp
    have hmin : min cur.content.length prev.content.length =
        cur.area.width * cur.area.height := by omega
    apply Buffer.eqOf
    · rw [Buffer.applyWrites_area]; exact h.symm
    · apply List.ext_getElem?
      intro j
      unfold Buffer.diffCore
      rw [hmin,
        Buffer.applyWrites_diffEmit_get cur prev
          (List.range (cur.area.width * cur.area.height)) prev h.symm hlp
          (fun i hi => List.mem_range.mp hi) j]
      by_cases hj : j < cur.area.width * cur.area.height
      · by_cases hd : dirtyAt cur.content prev.content j = true
        · rw [if_pos ⟨List.mem_range.mpr hj, hd⟩,
            List.getElem?_eq_getElem (show j < cur.content.length by omega)]
          rw [List.getD_eq_getElem?_getD,
            List.getElem?_eq_getElem (show j < cur.content.length by omega)]
          rfl
        · rw [if_neg (fun hcon => hd hcon.2)]
          have heq : cur.content.getD j {} = prev.content.getD j {} := by
            by_contra hne
            refine hd ?_
            simp only [dirtyAt, Bool.or_eq_true, Bool.and_eq_true,
              decide_eq_true_eq]
            exact Or.inl (Or.inl (by simpa using hne))
          rw [List.getD_eq_getElem?_getD, List.getD_eq_getElem?_getD,
            List.getElem?_eq_getElem (show j < cur.content.length by omega),
            List.getElem?_eq_getElem (show j < prev.content.length by omega)]
            at heq
          rw [List.getElem?_eq_getElem (show j < cur.content.length by omega),
            List.getElem?_eq_getElem (show j < prev.content.length by omega)]
          simpa using heq.symm
      · rw [if_neg (fun hcon => hj (List.mem_range.mp hcon.1)),
          List.getElem?_eq_none (show cur.content.length ≤ j by omega),
          List.getElem?_eq_none (show prev.content.length ≤ j by omega)]

/-- Witness for C1 at a concrete pair of equal-area buffers. -/
theorem claim1_witness :
    (exampleHi.WellFormed ∧ exampleEmpty.WellFormed ∧
      exampleHi.area = exampleEmpty.area) ∧
      exampleHi.diff exampleEmpty = some (exampleHi.diffCore exampleEmpty) ∧
      exampleEmpty.applyWrites (exampleHi.diffCore exampleEmpty) = exampleHi :=
  ⟨⟨by decide, by decide, rfl⟩,
    claim1_diff_roundTrip exampleHi exampleEmpty (by decide) (by decide) rfl⟩

/-- C5: for every buffer `A`, `diff(A, A)` — diffing a buffer against an
identical buffer — returns an empty sequence of dirty cells. -/
theorem claim5_diff_self_empty : ∀ (b : Buffer), b.diff b = some [] := by
  intro b
  unfold Buffer.diff
  rw [if_pos rfl]
  simp [Buffer.diffCore, Buffer.diffEmit, dirtyAt_self]

/-- C6: for every pair of equal-area buffers, the sequence of `(x, y, cell)`
entries returned by `diff` is in strictly ascending row-major order: each
entry's linear index `y * width + x` is strictly greater than the previous
entry's. -/
theorem claim6_diff_ascending :
    ∀ (cur prev : Buffer) (l : List (Nat × Nat × Cell)),
      cur.area = prev.area → cur.diff prev = some l →
      l.Pairwise (fun u v =>
        u.2.1 * cur.area.width + u.1 < v.2.1 * cur.area.width + v.1) := by
  intro cur prev l h hl
  unfold Buffer.diff at hl
  rw [if_pos h] at hl
  injection hl with hl
  subst hl
  unfold Buffer.diffCore
  refine List.Pairwise.filterMap _ ?_ (List.pairwise_lt_range _)
  intro i j hij u hu v hv
  unfold Buffer.diffEmit at hu hv
  split at hu
  · split at hv
    · rw [Option.mem_some_iff] at hu hv
      subst hu; subst hv
      simp only
      rw [posOf_linear, posOf_linear]
      exact Nat.add_lt_add_left hij _
    · simp at hv
  · simp at hu

/-- Witness for C6 at a concrete pair of equal-area buffers. -/
theorem claim6_witness :
    exampleHi.area = exampleEmpty.area ∧
      ∃ l, exampleHi.diff exampleEmpty = some l ∧
        l.Pairwise (fun u v =>
          u.2.1 * exampleHi.area.width + u.1 <
            v.2.1 * exampleHi.area.width + v.1) :=
  ⟨rfl, (exampleHi.diffCore exampleEmpty), rfl,
    claim6_diff_ascending exampleHi exampleEmpty _ rfl rfl⟩

/-! ### set_string lemmas -/

/-- The linear index of an in-row point lies in that row's band. -/
lemma Buffer.indexOf_inRowBand (b : Buffer) (px py : Nat)
    (h1 : b.area.x ≤ px) (h2 : px < b.area.right) :
    b.inRowBand py (b.indexOf px py) := by
  unfold Buffer.inRowBand Buffer.indexOf
  unfold Rect.right at h2
  refine ⟨Nat.le_add_right _ _, Nat.add_lt_add_left ?_ _⟩
  omega

/-- Two distinct rows have disjoint index bands. -/
lemma rowBand_ne (w a c d : Nat) (h : a ≠ d) (hc : c < w) :
    a * w + c < d * w ∨ d * w + w ≤ a * w + c := by
  rcases Nat.lt_or_ge a d with hlt | hge
  · left
    calc a * w + c < a * w + w := Nat.add_lt_add_left hc _
      _ = (a + 1) * w := by ring
      _ ≤ d * w := Nat.mul_le_mul_right w hlt
  · have hgt : d < a := Nat.lt_of_le_of_ne hge (fun he => h he.symm)
    right
    calc d * w + w = (d + 1) * w := by ring
      _ ≤ a * w := Nat.mul_le_mul_right w hgt
      _ ≤ a * w + c := Nat.le_add_right _ _

lemma Buffer.placeholders_area (k : Nat) :
    ∀ (b : Buffer) (px py : Nat) (st : Style),
      (b.placeholders px py k st).area = b.area := by
  induction k with
  | zero => intro b px py st; rfl
  | succ k ih =>
    intro b px py st
    simp only [Buffer.placeholders]
    rw [ih]
    rfl

/-- Placeholder writes inside row `py` leave indices outside the row's band
unchanged. -/
lemma Buffer.placeholders_outside (k : Nat) :
    ∀ (b : Buffer) (px py : Nat) (st : Style) (j : Nat),
      b.area.x ≤ px → px + k ≤ b.area.right → ¬ b.inRowBand py j →
      (b.placeholders px py k st).content[j]? = b.content[j]? := by
  induction k with
  | zero => intros; rfl
  | succ k ih =>
    intro b px py st j h1 h2 hout
    simp only [Buffer.placeholders]
    rw [ih _ (px + 1) py st j (by show b.area.x ≤ px + 1; omega)
      (by show px + 1 + k ≤ b.area.right; omega)
      (by show ¬ b.inRowBand py j; exact hout)]
    have hband := Buffer.indexOf_inRowBand b px py h1 (by omega)
    have hne : b.indexOf px py ≠ j := fun heq => hout (by rw [← heq]; exact hband)
    unfold Buffer.setAt
    simp only
    rw [List.getElem?_set_ne hne]

lemma Buffer.setStringFrom_area :
    ∀ (text : List (String × Nat)) (b : Buffer) (px py : Nat) (st : Style),
      (b.setStringFrom px py text st).area = b.area := by
  intro text
  induction text with
  | nil => intros; rfl
  | cons g rest ih =>
    intro b px py st
    simp only [Buffer.setStringFrom]
    by_cases h0 : g.2 = 0
    · rw [if_pos h0]
      exact ih b px py st
    · rw [if_neg h0]
      by_cases hfit : px + g.2 ≤ b.area.right
      · rw [if_pos hfit, ih, Buffer.placeholders_area]
        rfl
      · rw [if_neg hfit]

/-- `set_string` writes only inside row `py`'s band: indices outside it are
unchanged. -/
lemma Buffer.setStringFrom_outside :
    ∀ (text : List (String × Nat)) (b : Buffer) (px py : Nat) (st : Style)
      (j : Nat), b.area.x ≤ px → ¬ b.inRowBand py j →
      (b.setStringFrom px py text st).content[j]? = b.content[j]? := by
  intro text
  induction text with
  | nil => intros; rfl
  | cons g rest ih =>
    intro b px py st j h1 hout
    simp only [Buffer.setStringFrom]
    by_cases h0 : g.2 = 0
    · rw [if_pos h0]
      exact ih b px py st j h1 hout
    · rw [if_neg h0]
      by_cases hfit : px + g.2 ≤ b.area.right
      · rw [if_pos hfit]
        have e2 : ((b.setAt (b.indexOf px py) ⟨g.1, g.2, st⟩).placeholders
            (px + 1) py (g.2 - 1) st).area = b.area :=
          Buffer.placeholders_area (g.2 - 1) _ (px + 1) py st
        rw [ih _ (px + g.2) py st j
          (by rw [e2]; omega)
          (by unfold Buffer.inRowBand; rw [e2]; exact hout)]
        rw [Buffer.placeholders_outside (g.2 - 1) _ (px + 1) py st j
          (by show b.area.x ≤ px + 1; omega)
          (by show px + 1 + (g.2 - 1) ≤ b.area.right; omega)
          (by show ¬ b.inRowBand py j; exact hout)]
        have hband := Buffer.indexOf_inRowBand b px py h1 (by omega)
        have hne : b.indexOf px py ≠ j := fun heq =>
          hout (by rw [← heq]; exact hband)
        unfold Buffer.setAt
        simp only
        rw [List.getElem?_set_ne hne]
      · rw [if_neg hfit]

/-- Point reads agree on buffers with the same area whose contents agree at
the read index (whenever the point is in bounds). -/
lemma Buffer.get_congr (b bp : Buffer) (qx qy : Nat) (ha : bp.area = b.area)
    (hcc : b.area.containsXY qx qy = true →
      bp.content[b.indexOf qx qy]? = b.content[b.indexOf qx qy]?) :
    bp.get qx qy = b.get qx qy := by
  unfold Buffer.get
  rw [ha]
  by_cases hc : b.area.containsXY qx qy = true
  · rw [if_pos hc, if_pos hc]
    have : bp.indexOf qx qy = b.indexOf qx qy := by
      unfold Buffer.indexOf
      rw [ha]
    rw [this]
    exact hcc hc
  · rw [if_neg hc, if_neg hc]

/-- C7: `set_string` truncates at the buffer's right edge and never wraps:
rows other than the target row are never modified, and a glyph that does not
fit at the write position (in particular a 2-cell-wide symbol at the last
column) aborts the write, leaving the buffer unchanged. -/
theorem claim7_truncation :
    ∀ (b : Buffer) (px py : Nat) (text : List (String × Nat)) (st : Style),
      (∀ qx qy, qy ≠ py → (b.setString px py text st).get qx qy = b.get qx qy) ∧
      (∀ s w rest, 0 < w → b.area.right < px + w →
        b.setString px py ((s, w) :: rest) st = b) := by
  intro b px py text st
  constructor
  · intro qx qy hne
    unfold Buffer.setString
    by_cases hc : b.area.containsXY px py = true
    · rw [if_pos hc]
      apply Buffer.get_congr _ _ _ _ (Buffer.setStringFrom_area text b px py st)
      intro hq
      have hcpx : b.area.x ≤ px := by
        unfold Rect.containsXY at hc
        simp only [Bool.and_eq_true, decide_eq_true_eq] at hc
        exact hc.1.1.1
      apply Buffer.setStringFrom_outside text b px py st _ hcpx
      unfold Rect.containsXY Rect.right Rect.bottom at hc hq
      simp only [Bool.and_eq_true, decide_eq_true_eq] at hc hq
      unfold Buffer.inRowBand Buffer.indexOf
      have hrow : qy - b.area.y ≠ py - b.area.y := by omega
      have hcol : qx - b.area.x < b.area.width := by omega
      rcases rowBand_ne b.area.width (qy - b.area.y) (qx - b.area.x)
        (py - b.area.y) hrow hcol with hlt | hge
      · intro hcon
        have h1 := hcon.1
        omega
      · intro hcon
        have h2 := hcon.2
        omega
    · rw [if_neg hc]
  · intro s w rest hw hover
    unfold Buffer.setString
    by_cases hc : b.area.containsXY px py = true
    · rw [if_pos hc]
      simp only [Buffer.setStringFrom]
      rw [if_neg (by simpa using Nat.pos_iff_ne_zero.mp hw),
        if_neg (by show ¬(px + w ≤ b.area.right); omega)]
    · rw [if_neg hc]

/-- Witness for C7: a 2-cell-wide symbol at the last column of a 2×1 buffer
writes nothing, and no other row is touched. -/
theorem claim7_witness :
    ((0 : Nat) ≠ (0 : Nat) → False) ∧
      (exampleEmpty.setString 1 0 [("W", 2)] {}).get 0 1 = exampleEmpty.get 0 1 ∧
      (0 < 2 ∧ exampleEmpty.area.right < 1 + 2) ∧
      exampleEmpty.setString 1 0 [("W", 2)] {} = exampleEmpty :=
  ⟨fun h => h rfl,
    (claim7_truncation exampleEmpty 1 0 [("W", 2)] {}).1 0 1 (by decide),
    ⟨by decide, by decide⟩,
    (claim7_truncation exampleEmpty 1 0 [("W", 2)] {}).2 "W" 2 [] (by decide)
      (by decide)⟩

/-! ### Layout solver lemmas -/

lemma slackFlex_le (c : Constraint) (v : Nat) : slackFlex c v ≤ v := by
  unfold slackFlex
  split
  · exact Nat.sub_le _ _
  · exact Nat.zero_le _

lemma slackNonFlex_le (c : Constraint) (v : Nat) : slackNonFlex c v ≤ v := by
  unfold slackNonFlex
  split
  · exact Nat.zero_le _
  · exact Nat.le_refl _

lemma growTake_le (c : Constraint) (v e : Nat) : growTake c v e ≤ e := by
  cases c <;> simp [growTake]

lemma growTake_nonflex (c : Constraint) (v e : Nat)
    (h : c.isFlexible = false) : growTake c v e = 0 := by
  cases c <;> simp_all [growTake, Constraint.isFlexible]

lemma shrinkPass_length (f : Constraint → Nat → Nat) :
    ∀ (l : List (Constraint × Nat)) (e : Nat),
      ((shrinkPass f l e).1).length = l.length := by
  intro l
  induction l with
  | nil => intro e; rfl
  | cons p rest ih =>
    intro e
    cases p with
    | mk c v => simp [shrinkPass, ih]

lemma shrinkPass_sum (f : Constraint → Nat → Nat) (hf : ∀ c v, f c v ≤ v) :
    ∀ (l : List (Constraint × Nat)) (e : Nat),
      (((shrinkPass f l e).1).map Prod.snd).sum + e =
        (l.map Prod.snd).sum + (shrinkPass f l e).2 := by
  intro l
  induction l with
  | nil => intro e; simp [shrinkPass]
  | cons p rest ih =>
    intro e
    cases p with
    | mk c v =>
      have h1 : min e (f c v) ≤ v := le_trans (Nat.min_le_right _ _) (hf c v)
      have h2 : min e (f c v) ≤ e := Nat.min_le_left _ _
      have h3 := ih (e - min e (f c v))
      simp only [shrinkPass, List.map_cons, List.sum_cons]
      omega

lemma shrinkPass_absorb (f : Constraint → Nat → Nat) :
    ∀ (l : List (Constraint × Nat)) (e : Nat),
      e ≤ (l.map (fun p => f p.1 p.2)).sum → (shrinkPass f l e).2 = 0 := by
  intro l
  induction l with
  | nil =>
    intro e he
    simp only [List.map_nil, List.sum_nil] at he
    simp only [shrinkPass]
    omega
  | cons p rest ih =>
    intro e he
    cases p with
    | mk c v =>
      simp only [List.map_cons, List.sum_cons] at he
      simp only [shrinkPass]
      exact ih _ (by omega)

lemma shrinkPass_dichotomy (f : Constraint → Nat → Nat) :
    ∀ (l : List (Constraint × Nat)) (e : Nat),
      (shrinkPass f l e).2 = 0 ∨
        (shrinkPass f l e).1 = l.map (fun p => (p.1, p.2 - f p.1 p.2)) := by
  intro l
  induction l with
  | nil => intro e; right; rfl
  | cons p rest ih =>
    intro e
    cases p with
    | mk c v =>
      rcases le_or_lt (f c v) e with hle | hlt
      · have hmin : min e (f c v) = f c v := Nat.min_eq_right hle
        rcases ih (e - min e (f c v)) with hz | hsat
        · left
          simp only [shrinkPass]
          exact hz
        · right
          rw [hmin] at hsat
          simp only [shrinkPass, List.map_cons]
          rw [hmin, hsat]
      · have hmin : min e (f c v) = e := Nat.min_eq_left (Nat.le_of_lt hlt)
        left
        simp only [shrinkPass]
        rw [hmin, Nat.sub_self]
        exact shrinkPass_absorb f rest 0 (Nat.zero_le _)

lemma growPass_length :
    ∀ (l : List (Constraint × Nat)) (e : Nat),
      ((growPass l e).1).length = l.length := by
  intro l
  induction l with
  | nil => intro e; rfl
  | cons p rest ih =>
    intro e
    cases p with
    | mk c v => simp [growPass, ih]

lemma growPass_sum :
    ∀ (l : List (Constraint × Nat)) (e : Nat),
      (((growPass l e).1).map Prod.snd).sum + (growPass l e).2 =
        (l.map Prod.snd).sum + e := by
  intro l
  induction l with
  | nil => intro e; simp [growPass]
  | cons p rest ih =>
    intro e
    cases p with
    | mk c v =>
      have ht := growTake_le c v e
      have h3 := ih (e - growTake c v e)
      simp only [growPass, List.map_cons, List.sum_cons]
      omega

lemma growPass_get_nonflex :
    ∀ (l : List (Constraint × Nat)) (e i : Nat) (c : Constraint) (v : Nat),
      l[i]? = some (c, v) → c.isFlexible = false →
      ((growPass l e).1)[i]? = some (c, v) := by
  intro l
  induction l with
  | nil => intro e i c v h _; simp at h
  | cons p rest ih =>
    intro e i c v h hc
    cases p with
    | mk c0 v0 =>
      cases i with
      | zero =>
        have h' : (c0, v0) = (c, v) := by simpa using h
        cases h'
        simp only [growPass, List.getElem?_cons_zero, Option.some.injEq]
        rw [growTake_nonflex _ _ _ hc]
        simp
      | succ i =>
        simp only [List.getElem?_cons_succ] at h
        simp only [growPass, List.getElem?_cons_succ]
        exact ih _ i c v h hc

lemma addToLast_length :
    ∀ (l : List Nat) (e : Nat), (addToLast l e).length = l.length := by
  intro l
  induction l with
  | nil => intro e; rfl
  | cons v rest ih =>
    intro e
    cases rest with
    | nil => rfl
    | cons v2 r2 =>
      simp only [addToLast, List.length_cons]
      rw [ih]
      simp

lemma addToLast_sum :
    ∀ (l : List Nat) (e : Nat), l ≠ [] → (addToLast l e).sum = l.sum + e := by
  intro l
  induction l with
  | nil => intro e h; exact absurd rfl h
  | cons v rest ih =>
    intro e _
    cases rest with
    | nil => simp [addToLast]
    | cons v2 r2 =>
      simp only [addToLast, List.sum_cons]
      rw [ih e (by simp)]
      simp only [List.sum_cons]
      omega

lemma addToLast_get_lt :
    ∀ (l : List Nat) (e i : Nat), i + 1 < l.length →
      (addToLast l e)[i]? = l[i]? := by
  intro l
  induction l with
  | nil => intro e i h; simp at h
  | cons v rest ih =>
    intro e i h
    cases rest with
    | nil =>
      simp only [List.length_cons, List.length_nil] at h
      omega
    | cons v2 r2 =>
      cases i with
      | zero => simp only [addToLast, List.getElem?_cons_zero]
      | succ i =>
        simp only [addToLast, List.getElem?_cons_succ]
        exact ih e i (by simp only [List.length_cons] at h ⊢; omega)

lemma addToLast_zero : ∀ (l : List Nat), addToLast l 0 = l := by
  intro l
  induction l with
  | nil => rfl
  | cons v rest ih =>
    cases rest with
    | nil => simp [addToLast]
    | cons v2 r2 =>
      simp only [addToLast]
      rw [ih]

lemma rawLengths_length (total : Nat) (cs : List Constraint) :
    (rawLengths total cs).length = cs.length := by
  simp [rawLengths]

/-- The zipped constraint/raw-length list is a map over the constraints. -/
lemma zip_raw (total : Nat) (cs : List Constraint) :
    cs.zip (rawLengths total cs) =
      cs.map (fun c => (c, Constraint.raw total (flexShare total cs) c)) := by
  have h := List.zip_map' id (Constraint.raw total (flexShare total cs)) cs
  simpa [rawLengths] using h

lemma map_snd_zip_raw (total : Nat) (cs : List Constraint) :
    ((cs.zip (rawLengths total cs)).map Prod.snd) = rawLengths total cs :=
  List.map_snd_zip _ _ (by rw [rawLengths_length])

/-- Saturated flexible shrink leaves the declared lower bound plus, for
non-flexible constraints, the raw request. -/
lemma slackFlex_raw (total share : Nat) (c : Constraint) :
    Constraint.raw total share c - slackFlex c (Constraint.raw total share c) =
      c.lowerBound +
        (if c.isFlexible = true then 0 else Constraint.raw total share c) := by
  cases c <;>
    first
    | (simp [Constraint.raw, slackFlex, Constraint.isFlexible,
        Constraint.lowerBound, Constraint.nonFlexRaw]; omega)
    | simp [Constraint.raw, slackFlex, Constraint.isFlexible,
        Constraint.lowerBound, Constraint.nonFlexRaw]

/-- The non-flexible slack after a saturated flexible shrink is the raw
request of the non-flexible constraints. -/
lemma slackNonFlex_shrunk (total share : Nat) (c : Constraint) :
    slackNonFlex c
        (Constraint.raw total share c -
          slackFlex c (Constraint.raw total share c)) =
      if c.isFlexible = true then 0 else Constraint.raw total share c := by
  cases c <;>
    simp [Constraint.raw, slackFlex, slackNonFlex, Constraint.isFlexible]

lemma solve1D_length (total : Nat) (cs : List Constraint) :
    (solve1D total cs).length = cs.length := by
  unfold solve1D
  split
  · rw [List.length_map, shrinkPass_length, shrinkPass_length, List.length_zip,
      rawLengths_length, Nat.min_self]
  · rw [addToLast_length, List.length_map, growPass_length, List.length_zip,
      rawLengths_length, Nat.min_self]

/-- The solved lengths sum exactly to the available total whenever the
declared minimum bounds fit into it and there is at least one constraint. -/
lemma solve1D_sum (total : Nat) (cs : List Constraint) (hne : cs ≠ [])
    (hlb : (cs.map Constraint.lowerBound).sum ≤ total) :
    (solve1D total cs).sum = total := by
  unfold solve1D
  split
  · rename_i h
    have h1 := shrinkPass_sum slackFlex slackFlex_le
      (cs.zip (rawLengths total cs)) ((rawLengths total cs).sum - total)
    have h2 := shrinkPass_sum slackNonFlex slackNonFlex_le
      (shrinkPass slackFlex (cs.zip (rawLengths total cs))
        ((rawLengths total cs).sum - total)).1
      (shrinkPass slackFlex (cs.zip (rawLengths total cs))
        ((rawLengths total cs).sum - total)).2
    rw [map_snd_zip_raw] at h1
    rcases shrinkPass_dichotomy slackFlex (cs.zip (rawLengths total cs))
      ((rawLengths total cs).sum - total) with hz | hsat
    · have habs : (shrinkPass slackNonFlex
          (shrinkPass slackFlex (cs.zip (rawLengths total cs))
            ((rawLengths total cs).sum - total)).1
          (shrinkPass slackFlex (cs.zip (rawLengths total cs))
            ((rawLengths total cs).sum - total)).2).2 = 0 := by
        rw [hz]
        exact shrinkPass_absorb _ _ 0 (Nat.zero_le _)
      omega
    · have hmapeq : (shrinkPass slackFlex (cs.zip (rawLengths total cs))
          ((rawLengths total cs).sum - total)).1 =
          cs.map (fun c =>
            (c, Constraint.raw total (flexShare total cs) c -
              slackFlex c (Constraint.raw total (flexShare total cs) c))) := by
        rw [hsat, zip_raw, List.map_map]
        rfl
      have hsum1 : (((shrinkPass slackFlex (cs.zip (rawLengths total cs))
          ((rawLengths total cs).sum - total)).1).map Prod.snd).sum =
          (cs.map Constraint.lowerBound).sum +
            (cs.map (fun c => if c.isFlexible = true then 0 else
              Constraint.raw total (flexShare total cs) c)).sum := by
        rw [hmapeq, List.map_map]
        rw [show (Prod.snd ∘ fun c =>
            (c, Constraint.raw total (flexShare total cs) c -
              slackFlex c (Constraint.raw total (flexShare total cs) c))) =
            fun c => Constraint.raw total (flexShare total cs) c -
              slackFlex c (Constraint.raw total (flexShare total cs) c)
          from rfl]
        rw [List.map_congr_left
          (fun c _ => slackFlex_raw total (flexShare total cs) c)]
        rw [List.sum_map_add]
      have hslack2 : (((shrinkPass slackFlex (cs.zip (rawLengths total cs))
          ((rawLengths total cs).sum - total)).1).map
            (fun p => slackNonFlex p.1 p.2)).sum =
          (cs.map (fun c => if c.isFlexible = true then 0 else
            Constraint.raw total (flexShare total cs) c)).sum := by
        rw [hmapeq, List.map_map]
        rw [show ((fun p : Constraint × Nat => slackNonFlex p.1 p.2) ∘ fun c =>
            (c, Constraint.raw total (flexShare total cs) c -
              slackFlex c (Constraint.raw total (flexShare total cs) c))) =
            fun c => slackNonFlex c
              (Constraint.raw total (flexShare total cs) c -
                slackFlex c (Constraint.raw total (flexShare total cs) c))
          from rfl]
        rw [List.map_congr_left
          (fun c _ => slackNonFlex_shrunk total (flexShare total cs) c)]
      have habs2 : (shrinkPass slackNonFlex
          (shrinkPass slackFlex (cs.zip (rawLengths total cs))
            ((rawLengths total cs).sum - total)).1
          (shrinkPass slackFlex (cs.zip (rawLengths total cs))
            ((rawLengths total cs).sum - total)).2).2 = 0 := by
        apply shrinkPass_absorb
        rw [hslack2]
        rw [hsum1] at h1
        omega
      rw [hsum1] at h1 h2
      omega
  · rename_i h
    have hg := growPass_sum (cs.zip (rawLengths total cs))
      (total - (rawLengths total cs).sum)
    rw [map_snd_zip_raw] at hg
    have hlen : ((((growPass (cs.zip (rawLengths total cs))
        (total - (rawLengths total cs).sum)).1)).map Prod.snd).length =
        cs.length := by
      rw [List.length_map, growPass_length, List.length_zip,
        rawLengths_length, Nat.min_self]
    rw [addToLast_sum _ _ (List.ne_nil_of_length_pos
      (by rw [hlen]; exact List.length_pos.mpr hne))]
    omega

/-- C8: splitting `Rect(0,0,30,10)` vertically with margin 1 and constraints
`[Percentage 10, Percentage 80, Percentage 10]` yields exactly three
segments of heights 1, 6 and 1, each of width 28, at `x = 1` and `y` offsets
1, 2 and 8, tiling the margin-shrunk area with no gaps. -/
theorem claim8_percentage_scenario :
    split ⟨0, 0, 30, 10⟩ Direction.Vertical 1
        [Constraint.Percentage 10, Constraint.Percentage 80,
          Constraint.Percentage 10] =
      [⟨1, 1, 28, 1⟩, ⟨1, 2, 28, 6⟩, ⟨1, 8, 28, 1⟩] := by
  decide

/-- C9: `end_draw` fails exactly when the backend write fails; the error is
propagated, and on failure the buffers are not swapped — the state (hence
the previous buffer the next cycle diffs against) is unchanged. -/
theorem claim9_endDraw_failure :
    ∀ (st : RenderSurface)
      (bw : List (Nat × Nat × Cell) → Except String Unit),
      (∀ e, bw ((st.current.diff st.previous).getD []) = .error e →
        endDraw st bw = (.error e, st)) ∧
      (∀ e, (endDraw st bw).1 = .error e →
        bw ((st.current.diff st.previous).getD []) = .error e) := by
  intro st bw
  constructor
  · intro e h
    simp [endDraw, h]
  · intro e h
    simp only [endDraw] at h
    split at h
    · simp_all
    · simp_all

/-- Witness for C9 at a concrete state and a failing backend. -/
theorem claim9_witness :
    (fun _ : List (Nat × Nat × Cell) => (Except.error "boom" : Except String Unit))
        ((((⟨exampleEmpty, exampleEmpty, true⟩ : RenderSurface)).current.diff
          (⟨exampleEmpty, exampleEmpty, true⟩ : RenderSurface).previous).getD []) =
        .error "boom" ∧
      endDraw ⟨exampleEmpty, exampleEmpty, true⟩
          (fun _ => .error "boom") =
        (.error "boom", ⟨exampleEmpty, exampleEmpty, true⟩) :=
  ⟨rfl, (claim9_endDraw_failure ⟨exampleEmpty, exampleEmpty, true⟩
    (fun _ => .error "boom")).1 "boom" rfl⟩

/-- C10: out-of-bounds point access (`get`/`set`) and `diff`/`merge` on
buffers violating the area precondition fail loudly and immediately (`none`),
never silently clamping. -/
theorem claim10_precondition_failures :
    ∀ (b ob : Buffer) (px py : Nat) (c : Cell),
      (b.area.containsXY px py = false →
        b.get px py = none ∧ b.set px py c = none) ∧
      (b.area ≠ ob.area → b.diff ob = none) ∧
      (b.area.containsRect ob.area = false → b.merge ob = none) := by
  intro b ob px py c
  refine ⟨fun h => ⟨?_, ?_⟩, fun h => ?_, fun h => ?_⟩ <;>
    simp [Buffer.get, Buffer.set, Buffer.diff, Buffer.merge, h]

/-- Witness for C10 at concrete out-of-bounds and mismatched inputs. -/
theorem claim10_witness :
    (exampleEmpty.area.containsXY 5 0 = false ∧
      exampleEmpty.get 5 0 = none ∧ exampleEmpty.set 5 0 {} = none) ∧
    (exampleEmpty.area ≠ (Buffer.empty ⟨0, 0, 3, 1⟩).area ∧
      exampleEmpty.diff (Buffer.empty ⟨0, 0, 3, 1⟩) = none) ∧
    (exampleEmpty.area.containsRect (Buffer.empty ⟨0, 0, 3, 1⟩).area = false ∧
      exampleEmpty.merge (Buffer.empty ⟨0, 0, 3, 1⟩) = none) := by
  refine ⟨⟨by decide, ?_, ?_⟩, ⟨by decide, ?_⟩, ⟨by decide, ?_⟩⟩
  · exact ((claim10_precondition_failures exampleEmpty exampleEmpty 5 0 {}).1
      (by decide)).1
  · exact ((claim10_precondition_failures exampleEmpty exampleEmpty 5 0 {}).1
      (by decide)).2
  · exact (claim10_precondition_failures exampleEmpty
      (Buffer.empty ⟨0, 0, 3, 1⟩) 5 0 {}).2.1 (by decide)
  · exact (claim10_precondition_failures exampleEmpty
      (Buffer.empty ⟨0, 0, 3, 1⟩) 5 0 {}).2.2 (by decide)

/-! ### Segment placement lemmas -/

lemma placeSegs_length (dir : Direction) (ox oy iw ihh : Nat) :
    ∀ (lens : List Nat) (off : Nat),
      (placeSegs dir ox oy iw ihh off lens).length = lens.length := by
  intro lens
  induction lens with
  | nil => intro off; cases dir <;> rfl
  | cons v rest ih =>
    intro off
    cases dir <;> simp [placeSegs, ih]

lemma placeSegs_map_length (dir : Direction) (ox oy iw ihh : Nat) :
    ∀ (lens : List Nat) (off : Nat),
      (placeSegs dir ox oy iw ihh off lens).map (Rect.lengthAlong dir) =
        lens := by
  intro lens
  induction lens with
  | nil => intro off; cases dir <;> rfl
  | cons v rest ih =>
    intro off
    cases dir <;> simp [placeSegs, Rect.lengthAlong, ih]

lemma placeSegs_off_le (dir : Direction) (ox oy iw ihh : Nat) :
    ∀ (lens : List Nat) (off : Nat) (r : Rect),
      r ∈ placeSegs dir ox oy iw ihh off lens → off ≤ r.offsetAlong dir := by
  intro lens
  induction lens with
  | nil => intro off r hr; cases dir <;> simp [placeSegs] at hr
  | cons v rest ih =>
    intro off r hr
    cases dir
    · simp only [placeSegs] at hr
      rcases List.mem_cons.mp hr with he | ht
      · subst he
        simp [Rect.offsetAlong]
      · exact le_trans (Nat.le_add_right _ _) (ih (off + v) r ht)
    · simp only [placeSegs] at hr
      rcases List.mem_cons.mp hr with he | ht
      · subst he
        simp [Rect.offsetAlong]
      · exact le_trans (Nat.le_add_right _ _) (ih (off + v) r ht)

lemma placeSegs_pairwise (dir : Direction) (ox oy iw ihh : Nat) :
    ∀ (lens : List Nat) (off : Nat),
      List.Pairwise (fun r rp => r.offsetAlong dir + r.lengthAlong dir ≤
        rp.offsetAlong dir) (placeSegs dir ox oy iw ihh off lens) := by
  intro lens
  induction lens with
  | nil => intro off; cases dir <;> simp [placeSegs]
  | cons v rest ih =>
    intro off
    cases dir
    · simp only [placeSegs]
      refine List.Pairwise.cons ?_ (ih (off + v))
      intro rp hrp
      have hle := placeSegs_off_le Direction.Horizontal ox oy iw ihh rest
        (off + v) rp hrp
      simpa [Rect.offsetAlong, Rect.lengthAlong] using hle
    · simp only [placeSegs]
      refine List.Pairwise.cons ?_ (ih (off + v))
      intro rp hrp
      have hle := placeSegs_off_le Direction.Vertical ox oy iw ihh rest
        (off + v) rp hrp
      simpa [Rect.offsetAlong, Rect.lengthAlong] using hle

lemma placeSegs_chain (dir : Direction) (ox oy iw ihh : Nat) :
    ∀ (lens : List Nat) (off : Nat),
      List.Chain' (fun r rp => rp.offsetAlong dir =
        r.offsetAlong dir + r.lengthAlong dir)
        (placeSegs dir ox oy iw ihh off lens) := by
  intro lens
  induction lens with
  | nil => intro off; cases dir <;> simp [placeSegs]
  | cons v rest ih =>
    intro off
    cases rest with
    | nil =>
      cases dir <;> simp only [placeSegs] <;> exact List.chain'_singleton _
    | cons v2 r2 =>
      cases dir
      · have ih2 := ih (off + v)
        simp only [placeSegs] at ih2 ⊢
        exact List.chain'_cons.mpr
          ⟨by simp [Rect.offsetAlong, Rect.lengthAlong], ih2⟩
      · have ih2 := ih (off + v)
        simp only [placeSegs] at ih2 ⊢
        exact List.chain'_cons.mpr
          ⟨by simp [Rect.offsetAlong, Rect.lengthAlong], ih2⟩

lemma growPass_allNonflex :
    ∀ (l : List (Constraint × Nat)) (e : Nat),
      (∀ p ∈ l, (Prod.fst p).isFlexible = false) → growPass l e = (l, e) := by
  intro l
  induction l with
  | nil => intro e _; rfl
  | cons p rest ih =>
    intro e h
    cases p with
    | mk c v =>
      have hc : c.isFlexible = false := h (c, v) (List.mem_cons_self _ _)
      simp only [growPass, growTake_nonflex _ _ _ hc]
      rw [ih (e - 0) (fun q hq => h q (List.mem_cons_of_mem _ hq))]
      simp

/-! ### Layout claims -/

/-- C2 counterexample: with a `Percentage 0` constraint a segment has length
zero, so the following segment starts at the same offset — the offsets are
not strictly increasing. -/
theorem claim2_counterexample :
    (split ⟨0, 0, 10, 10⟩ Direction.Vertical 0
        [Constraint.Percentage 0, Constraint.Percentage 100]).map
      (Rect.offsetAlong Direction.Vertical) = [0, 0] ∧
    ¬ List.Pairwise (fun r rp => r.offsetAlong Direction.Vertical <
        rp.offsetAlong Direction.Vertical)
      (split ⟨0, 0, 10, 10⟩ Direction.Vertical 0
        [Constraint.Percentage 0, Constraint.Percentage 100]) := by
  decide

/-- C2 (amended): for a nonempty constraint list whose declared minimum
bounds fit into the available total, `split` returns one rectangle per
constraint in input order; the segments are adjacent (each begins exactly
where the previous ends, hence non-decreasing offsets and no gaps), pairwise
non-overlapping, their lengths along the split axis sum exactly to the
available total, and the offsets are strictly increasing whenever every
segment length is positive. -/
theorem claim2_split_segments (area : Rect) (dir : Direction) (margin : Nat)
    (cs : List Constraint) (hne : cs ≠ [])
    (hlb : (cs.map Constraint.lowerBound).sum ≤
      availableTotal area dir margin) :
    (split area dir margin cs).length = cs.length ∧
      ((split area dir margin cs).map (Rect.lengthAlong dir)).sum =
        availableTotal area dir margin ∧
      List.Chain' (fun r rp => rp.offsetAlong dir =
        r.offsetAlong dir + r.lengthAlong dir) (split area dir margin cs) ∧
      List.Pairwise (fun r rp => r.offsetAlong dir + r.lengthAlong dir ≤
        rp.offsetAlong dir) (split area dir margin cs) ∧
      ((∀ r ∈ split area dir margin cs, 0 < r.lengthAlong dir) →
        List.Pairwise (fun r rp => r.offsetAlong dir < rp.offsetAlong dir)
          (split area dir margin cs)) := by
  refine ⟨?_, ?_, ?_, ?_, ?_⟩
  · unfold split
    rw [placeSegs_length, solve1D_length]
  · unfold split
    rw [placeSegs_map_length, solve1D_sum _ _ hne hlb]
  · exact placeSegs_chain dir _ _ _ _ _ _
  · exact placeSegs_pairwise dir _ _ _ _ _ _
  · intro hpos
    refine List.Pairwise.imp_of_mem ?_ (placeSegs_pairwise dir _ _ _ _ _ _)
    intro a b ha hb hab
    have h1 := hpos a ha
    omega

/-- Witness for C2 at a concrete valid input. -/
theorem claim2_witness :
    (([Constraint.Length 3, Constraint.Min 2] ≠ ([] : List Constraint)) ∧
      (([Constraint.Length 3, Constraint.Min 2].map
        Constraint.lowerBound).sum ≤
        availableTotal ⟨0, 0, 10, 10⟩ Direction.Vertical 1)) ∧
    ((split ⟨0, 0, 10, 10⟩ Direction.Vertical 1
        [Constraint.Length 3, Constraint.Min 2]).length = 2 ∧
      ((split ⟨0, 0, 10, 10⟩ Direction.Vertical 1
          [Constraint.Length 3, Constraint.Min 2]).map
        (Rect.lengthAlong Direction.Vertical)).sum =
        availableTotal ⟨0, 0, 10, 10⟩ Direction.Vertical 1 ∧
      List.Chain' (fun r rp => rp.offsetAlong Direction.Vertical =
        r.offsetAlong Direction.Vertical + r.lengthAlong Direction.Vertical)
        (split ⟨0, 0, 10, 10⟩ Direction.Vertical 1
          [Constraint.Length 3, Constraint.Min 2]) ∧
      List.Pairwise (fun r rp => r.offsetAlong Direction.Vertical +
        r.lengthAlong Direction.Vertical ≤ rp.offsetAlong Direction.Vertical)
        (split ⟨0, 0, 10, 10⟩ Direction.Vertical 1
          [Constraint.Length 3, Constraint.Min 2]) ∧
      ((∀ r ∈ split ⟨0, 0, 10, 10⟩ Direction.Vertical 1
          [Constraint.Length 3, Constraint.Min 2],
          0 < r.lengthAlong Direction.Vertical) →
        List.Pairwise (fun r rp => r.offsetAlong Direction.Vertical <
          rp.offsetAlong Direction.Vertical)
          (split ⟨0, 0, 10, 10⟩ Direction.Vertical 1
            [Constraint.Length 3, Constraint.Min 2]))) :=
  ⟨⟨by decide, by decide⟩,
    claim2_split_segments ⟨0, 0, 10, 10⟩ Direction.Vertical 1
      [Constraint.Length 3, Constraint.Min 2] (by decide) (by decide)⟩

/-- C3: for every split whose constraints are all percentages or ratios, the
output segment lengths sum exactly to the available total (so their sum
never exceeds it), and — when the raw rounded requests fit — every segment
keeps its rounded request except the last, which absorbs the leftover. -/
theorem claim3_percentage_rounding (area : Rect) (dir : Direction)
    (margin : Nat) (cs : List Constraint) (hne : cs ≠ [])
    (hpr : ∀ c ∈ cs, c.isPercentageOrRatio = true) :
    ((split area dir margin cs).map (Rect.lengthAlong dir)).sum =
      availableTotal area dir margin ∧
    ((rawLengths (availableTotal area dir margin) cs).sum ≤
        availableTotal area dir margin →
      (split area dir margin cs).map (Rect.lengthAlong dir) =
        addToLast (rawLengths (availableTotal area dir margin) cs)
          (availableTotal area dir margin -
            (rawLengths (availableTotal area dir margin) cs).sum)) := by
  have hflex : ∀ c ∈ cs, c.isFlexible = false := by
    intro c hc
    have := hpr c hc
    cases c <;> simp_all [Constraint.isPercentageOrRatio, Constraint.isFlexible]
  have hlb : (cs.map Constraint.lowerBound).sum ≤
      availableTotal area dir margin := by
    have hz : (cs.map Constraint.lowerBound).sum = 0 := by
      apply List.sum_eq_zero
      intro x hx
      rcases List.mem_map.mp hx with ⟨c, hc, rfl⟩
      have := hflex c hc
      cases c <;> simp_all [Constraint.lowerBound, Constraint.isFlexible]
    omega
  constructor
  · unfold split
    rw [placeSegs_map_length, solve1D_sum _ _ hne hlb]
  · intro hs
    unfold split
    rw [placeSegs_map_length]
    unfold solve1D
    rw [if_neg (by omega)]
    rw [growPass_allNonflex _ _ (by
      intro p hp
      cases p with
      | mk c v => exact hflex c (List.of_mem_zip hp).1)]
    rw [map_snd_zip_raw]

/-- Witness for C3 at the crate-documentation percentages. -/
theorem claim3_witness :
    (([Constraint.Percentage 10, Constraint.Percentage 80,
        Constraint.Percentage 10] ≠ ([] : List Constraint)) ∧
      (∀ c ∈ [Constraint.Percentage 10, Constraint.Percentage 80,
        Constraint.Percentage 10], c.isPercentageOrRatio = true)) ∧
    (((split ⟨0, 0, 30, 10⟩ Direction.Vertical 1
        [Constraint.Percentage 10, Constraint.Percentage 80,
          Constraint.Percentage 10]).map
      (Rect.lengthAlong Direction.Vertical)).sum =
      availableTotal ⟨0, 0, 30, 10⟩ Direction.Vertical 1 ∧
      ((rawLengths (availableTotal ⟨0, 0, 30, 10⟩ Direction.Vertical 1)
          [Constraint.Percentage 10, Constraint.Percentage 80,
            Constraint.Percentage 10]).sum ≤
          availableTotal ⟨0, 0, 30, 10⟩ Direction.Vertical 1 →
        (split ⟨0, 0, 30, 10⟩ Direction.Vertical 1
            [Constraint.Percentage 10, Constraint.Percentage 80,
              Constraint.Percentage 10]).map
          (Rect.lengthAlong Direction.Vertical) =
          addToLast (rawLengths
              (availableTotal ⟨0, 0, 30, 10⟩ Direction.Vertical 1)
              [Constraint.Percentage 10, Constraint.Percentage 80,
                Constraint.Percentage 10])
            (availableTotal ⟨0, 0, 30, 10⟩ Direction.Vertical 1 -
              (rawLengths (availableTotal ⟨0, 0, 30, 10⟩ Direction.Vertical 1)
                [Constraint.Percentage 10, Constraint.Percentage 80,
                  Constraint.Percentage 10]).sum))) :=
  ⟨⟨by decide, by decide⟩,
    claim3_percentage_rounding ⟨0, 0, 30, 10⟩ Direction.Vertical 1
      [Constraint.Percentage 10, Constraint.Percentage 80,
        Constraint.Percentage 10] (by decide) (by decide)⟩

/-- C4 counterexample: a single fixed `Length 3` constraint on an available
total of 10 is not over-constrained, yet the returned segment has length 10,
because step 4 of the spec's algorithm assigns the leftover to the last
segment. -/
theorem claim4_counterexample :
    (split ⟨0, 0, 10, 10⟩ Direction.Vertical 0 [Constraint.Length 3]).map
      (Rect.lengthAlong Direction.Vertical) = [10] ∧
    (split ⟨0, 0, 10, 10⟩ Direction.Vertical 0 [Constraint.Length 3]).map
      (Rect.lengthAlong Direction.Vertical) ≠ [3] := by
  decide

/-- C4 (amended): in a non-over-constrained system (raw requests fit into
the available total), every fixed-length constraint receives exactly its
literal value, provided it is not the last segment or the leftover after
growing the flexible constraints is zero. -/
theorem claim4_fixed_exact (area : Rect) (dir : Direction) (margin : Nat)
    (cs : List Constraint) (i v : Nat)
    (hs : (rawLengths (availableTotal area dir margin) cs).sum ≤
      availableTotal area dir margin)
    (hi : cs[i]? = some (Constraint.Length v))
    (hlast : i + 1 < cs.length ∨
      growLeftover (availableTotal area dir margin) cs = 0) :
    ((split area dir margin cs).map (Rect.lengthAlong dir))[i]? = some v := by
  unfold split
  rw [placeSegs_map_length]
  unfold solve1D
  rw [if_neg (by omega)]
  have hL : (cs.zip (rawLengths (availableTotal area dir margin) cs))[i]? =
      some (Constraint.Length v, v) := by
    rw [zip_raw, List.getElem?_map, hi]
    rfl
  have hG := growPass_get_nonflex
    (cs.zip (rawLengths (availableTotal area dir margin) cs))
    (availableTotal area dir margin -
      (rawLengths (availableTotal area dir margin) cs).sum)
    i (Constraint.Length v) v hL rfl
  have hm : ((((growPass (cs.zip (rawLengths (availableTotal area dir margin)
      cs)) (availableTotal area dir margin -
        (rawLengths (availableTotal area dir margin) cs).sum)).1)).map
      Prod.snd)[i]? = some v := by
    rw [List.getElem?_map, hG]
    rfl
  rcases hlast with hlt | hzero
  · rw [addToLast_get_lt _ _ _ (by
      rw [List.length_map, growPass_length, List.length_zip,
        rawLengths_length, Nat.min_self]
      exact hlt)]
    exact hm
  · unfold growLeftover at hzero
    rw [hzero, addToLast_zero]
    exact hm

/-- Witness for C4 at a concrete non-over-constrained input with a flexible
last segment. -/
theorem claim4_witness :
    ((rawLengths (availableTotal ⟨0, 0, 10, 10⟩ Direction.Vertical 0)
        [Constraint.Length 3, Constraint.Min 0]).sum ≤
      availableTotal ⟨0, 0, 10, 10⟩ Direction.Vertical 0 ∧
      ([Constraint.Length 3, Constraint.Min 0][0]? =
        some (Constraint.Length 3)) ∧
      0 + 1 < ([Constraint.Length 3, Constraint.Min 0] :
        List Constraint).length) ∧
    ((split ⟨0, 0, 10, 10⟩ Direction.Vertical 0
        [Constraint.Length 3, Constraint.Min 0]).map
      (Rect.lengthAlong Direction.Vertical))[0]? = some 3 :=
  ⟨⟨by decide, by decide, by decide⟩,
    claim4_fixed_exact ⟨0, 0, 10, 10⟩ Direction.Vertical 0
      [Constraint.Length 3, Constraint.Min 0] 0 3 (by decide) (by decide)
      (Or.inl (by decide))⟩

end Tui
